import Mathlib

/-!
Verification development for the Messaging Intelligence Platform.

The repository ships a PostgreSQL schema (`infra/database/init.sql`), a
Next.js frontend (`frontend/src`), and design documentation for an AI
enrichment backend (processing queue, priority scorer, knowledge
aggregator, report generator).  The backend service itself is not part of
the source tree, so its operations are modelled here from the
specification; the SQL views and the frontend functions are embedded
directly from their source.
-/

namespace MIP

/-! Section: Priority Scorer (§4.2 of the spec)

Modelled from the spec: the scorer implementation (part of the AI backend,
FastAPI service) is absent from the source tree.  The model follows §4.2:
base weight by intent (urgent=6.0, support=3.0, sales=2.0, casual=0.5,
unknown intents fall back to the lowest base weight), a case-insensitive
scan of the text against the curated urgency-keyword list with each
distinct match adding 1.0 capped at 4.0, final score clamped to
[0.0, 10.0] and rounded to one decimal. -/

/-- The curated urgency-keyword list of §4.2. -/
def urgencyKeywords : List String :=
  ["urgent", "immediately", "asap", "critical", "now", "broken", "failed"]

/-- Lower-cased character list of a string (case-insensitive scan). -/
def lowerChars (s : String) : List Char := s.data.map Char.toLower

/-- Does `pat` occur at the head of `s`? -/
def leadMatch : List Char → List Char → Bool
  | [], _ => true
  | _ :: _, [] => false
  | c :: cs, d :: ds => c == d && leadMatch cs ds

/-- Does `pat` occur anywhere inside `s`? -/
def hasSub (pat : List Char) : List Char → Bool
  | [] => pat.isEmpty
  | c :: rest => leadMatch pat (c :: rest) || hasSub pat rest

/-- The distinct urgency keywords matched (case-insensitively) in `text`. -/
def matchedKeywords (text : String) : List String :=
  urgencyKeywords.filter (fun kw => hasSub (lowerChars kw) (lowerChars text))

/-- Base weight by intent; unknown intents fall back to the lowest weight. -/
def baseWeight (intent : String) : ℚ :=
  if intent = "urgent" then 6
  else if intent = "support" then 3
  else if intent = "sales" then 2
  else if intent = "casual" then 1/2
  else 1/2

/-- Keyword boost: 1.0 per distinct match, capped at 4.0. -/
def keywordBoost (text : String) : ℚ :=
  min ((matchedKeywords text).length : ℚ) 4

/-- Clamp to the interval [0.0, 10.0]. -/
def clampScore (x : ℚ) : ℚ := max 0 (min x 10)

/-- Round to one decimal place. -/
def roundTo1 (x : ℚ) : ℚ := ((round (10 * x) : ℤ) : ℚ) / 10

/-- The contract `score(intent, text) -> (score, matchedKeywords)` of §4.2. -/
def score (intent text : String) : ℚ × List String :=
  (roundTo1 (clampScore (baseWeight intent + keywordBoost text)), matchedKeywords text)

lemma roundTo1_mono {x y : ℚ} (h : x ≤ y) : roundTo1 x ≤ roundTo1 y := by
  unfold roundTo1
  have hr : round (10 * x) ≤ round (10 * y) := by
    rw [round_eq, round_eq]
    exact Int.floor_mono (by linarith)
  have hc : ((round (10 * x) : ℤ) : ℚ) ≤ ((round (10 * y) : ℤ) : ℚ) :=
    Int.cast_le.mpr hr
  linarith

lemma roundTo1_zero : roundTo1 0 = 0 := by
  unfold roundTo1
  norm_num

lemma roundTo1_ten : roundTo1 10 = 10 := by
  unfold roundTo1
  norm_num

lemma clampScore_range (x : ℚ) : 0 ≤ clampScore x ∧ clampScore x ≤ 10 := by
  unfold clampScore
  constructor
  · exact le_max_left 0 _
  · rcases le_total x 10 with h | h <;> simp [min_def, h]

lemma clampScore_mono {x y : ℚ} (h : x ≤ y) : clampScore x ≤ clampScore y := by
  unfold clampScore
  exact max_le_max le_rfl (min_le_min h le_rfl)

/-- The numeric output of the scorer always lies in [0.0, 10.0]. -/
lemma score_range (intent text : String) :
    0 ≤ (score intent text).1 ∧ (score intent text).1 ≤ 10 := by
  unfold score
  constructor
  · have h0 : roundTo1 0 ≤ roundTo1 (clampScore (baseWeight intent + keywordBoost text)) :=
      roundTo1_mono (clampScore_range _).1
    simpa [roundTo1_zero] using h0
  · have h10 : roundTo1 (clampScore (baseWeight intent + keywordBoost text)) ≤ roundTo1 10 :=
      roundTo1_mono (clampScore_range _).2
    simpa [roundTo1_ten] using h10

/-- Monotone in the number of distinct matched keywords, intent fixed. -/
lemma score_mono_in_matches (intent t1 t2 : String)
    (h : (matchedKeywords t1).length ≤ (matchedKeywords t2).length) :
    (score intent t1).1 ≤ (score intent t2).1 := by
  unfold score
  apply roundTo1_mono
  apply clampScore_mono
  have hb : keywordBoost t1 ≤ keywordBoost t2 := by
    unfold keywordBoost
    exact min_le_min (by exact_mod_cast h) le_rfl
  linarith

/-- C2: for every valid (intent, text) input pair, the resulting
score lies in [0.0, 10.0]; two calls with identical inputs return
identical results; and, holding the intent fixed, the score is
monotonically non-decreasing in the number of distinct matched urgency
keywords in the text. -/
theorem C2_score_bounded_deterministic_monotone (intent t1 t2 : String) :
    (0 ≤ (score intent t1).1 ∧ (score intent t1).1 ≤ 10) ∧
    score intent t1 = score intent t1 ∧
    ((matchedKeywords t1).length ≤ (matchedKeywords t2).length →
      (score intent t1).1 ≤ (score intent t2).1) := by
  refine ⟨score_range intent t1, rfl, fun h => score_mono_in_matches intent t1 t2 h⟩

/-- Witness for C2 at concrete inputs: the casual text matches no urgency
keyword, the urgent text matches some, and the score is monotone across
the two. -/
theorem C2_score_witness :
    ((matchedKeywords "thanks so much").length ≤
      (matchedKeywords "URGENT: payment failed immediately").length) ∧
    (0 ≤ (score "urgent" "thanks so much").1 ∧
      (score "urgent" "thanks so much").1 ≤ 10) ∧
    (score "urgent" "thanks so much").1 ≤
      (score "urgent" "URGENT: payment failed immediately").1 := by
  have h : (matchedKeywords "thanks so much").length ≤
      (matchedKeywords "URGENT: payment failed immediately").length := by decide
  have main := C2_score_bounded_deterministic_monotone "urgent"
    "thanks so much" "URGENT: payment failed immediately"
  exact ⟨h, main.1, main.2.2 h⟩

/-! Section: Processing Queue / Scheduler (§4.1 of the spec)

Modelled from the spec: the queue/scheduler implementation (part of the AI
backend service) is absent from the source tree; only its table
`ai_processing_queue` is declared in `infra/database/init.sql`.  The model
follows §4.1: `enqueue` is a no-op while a non-terminal Task exists for
the same (`message_id`, `task_type`); `claimNext` picks the pending Task
with the highest `priority`, tie-broken by oldest `created_at`, and marks
it `in_progress`; `complete` marks a claimed Task `completed`; `fail`
increments `retry_count` and returns the Task to `pending` while the count
stays below the configured bound (default 3), else marks it terminal
`dead`. -/

inductive TaskStatus where
  | pending
  | in_progress
  | completed
  | failed
  | dead
deriving DecidableEq, Repr

structure Task where
  id : Nat
  message_id : String
  room_id : String
  task_type : String
  priority : Int
  status : TaskStatus
  retry_count : Nat
  last_error : Option String
  created_at : Nat
deriving DecidableEq, Repr

structure QueueState where
  tasks : List Task
  nextId : Nat
deriving DecidableEq, Repr

/-- The configured retry bound (default 3, §4.1). -/
def retryBound : Nat := 3

/-- A Task still owed work: status `pending` or `in_progress`. -/
def nonTerminal : TaskStatus → Bool
  | .pending => true
  | .in_progress => true
  | _ => false

/-- Does the task match the (`message_id`, `task_type`) pair and hold a
non-terminal status? -/
def activeFor (mid tt : String) (t : Task) : Bool :=
  t.message_id == mid && t.task_type == tt && nonTerminal t.status

/-- Model of `enqueue`: no-op when a non-terminal Task for the pair already exists,
otherwise append a fresh `pending` Task. -/
def enqueue (s : QueueState) (mid rid tt : String) (prio : Int) : QueueState :=
  if s.tasks.any (activeFor mid tt) then s
  else
    { tasks := s.tasks ++
        [⟨s.nextId, mid, rid, tt, prio, .pending, 0, none, s.nextId⟩],
      nextId := s.nextId + 1 }

/-- Strictly better scheduling choice: higher priority, or same priority
and older `created_at`. -/
def betterTask (a b : Task) : Bool :=
  a.priority > b.priority || (a.priority == b.priority && a.created_at < b.created_at)

/-- The pending Task `claimNext` selects, if any. -/
def pickBest : List Task → Option Task
  | [] => none
  | t :: rest =>
    match pickBest rest with
    | none => if t.status == .pending then some t else none
    | some b =>
      if t.status == .pending then
        if betterTask t b then some t else some b
      else some b

/-- Model of `claimNext`: atomically transition the selected pending Task to
`in_progress` and hand it to the worker. -/
def claimNext (s : QueueState) : QueueState × Option Task :=
  match pickBest s.tasks with
  | none => (s, none)
  | some t =>
    ({ s with tasks := s.tasks.map (fun u =>
        if u.id = t.id ∧ u.status = .pending then { u with status := .in_progress } else u) },
     some { t with status := .in_progress })

/-- Model of `complete`: mark a claimed Task `completed`. -/
def completeTask (s : QueueState) (tid : Nat) : QueueState :=
  { s with tasks := s.tasks.map (fun u =>
      if u.id = tid ∧ u.status = .in_progress then { u with status := .completed } else u) }

/-- The updated Task an application of `fail` produces. -/
def failUpdate (err : String) (u : Task) : Task :=
  if u.retry_count + 1 < retryBound then
    { u with status := .pending, retry_count := u.retry_count + 1, last_error := some err }
  else
    { u with status := .dead, retry_count := u.retry_count + 1, last_error := some err }

/-- Model of `fail`: record the error, increment `retry_count`; return the Task to
`pending` below the retry bound, else mark it terminal `dead`. -/
def failTask (s : QueueState) (tid : Nat) (err : String) : QueueState :=
  { s with tasks := s.tasks.map (fun u =>
      if u.id = tid ∧ u.status = .in_progress then failUpdate err u else u) }

/-- The operations a queue state can undergo (lease expiry surfaces as a
`fail`, §4.1). -/
inductive QOp where
  | enq (mid rid tt : String) (prio : Int)
  | claim
  | compl (tid : Nat)
  | fl (tid : Nat) (err : String)

def applyQOp (s : QueueState) : QOp → QueueState
  | .enq mid rid tt prio => enqueue s mid rid tt prio
  | .claim => (claimNext s).1
  | .compl tid => completeTask s tid
  | .fl tid err => failTask s tid err

def initQueue : QueueState := ⟨[], 0⟩

/-- Run a sequence of queue operations starting from a given state. -/
def runQueueFrom (s : QueueState) (ops : List QOp) : QueueState :=
  ops.foldl applyQOp s

/-- Run a sequence of queue operations from the empty queue. -/
def runQueue (ops : List QOp) : QueueState := runQueueFrom initQueue ops

/-- How many Tasks are active (non-terminal) for the pair in a state. -/
def activeCount (s : QueueState) (mid tt : String) : Nat :=
  s.tasks.countP (activeFor mid tt)

lemma activeCount_map_le (s : QueueState) (f : Task → Task) (mid tt : String)
    (hf : ∀ t, activeFor mid tt (f t) = true → activeFor mid tt t = true) :
    (s.tasks.map f).countP (activeFor mid tt) ≤ activeCount s mid tt := by
  unfold activeCount
  rw [List.countP_map]
  exact List.countP_mono_left (fun a _ h => hf a h)

lemma activeFor_status_cases {mid tt : String} {t : Task} (h : activeFor mid tt t = true) :
    t.message_id = mid ∧ t.task_type = tt ∧
      (t.status = .pending ∨ t.status = .in_progress) := by
  unfold activeFor at h
  simp only [Bool.and_eq_true, beq_iff_eq] at h
  refine ⟨h.1.1, h.1.2, ?_⟩
  have hnt := h.2
  cases hsv : t.status <;> simp [nonTerminal, hsv] at hnt ⊢

lemma enqueue_preserves_activeCount_le (s : QueueState) (mid rid tt : String)
    (prio : Int) (mid2 tt2 : String) (h : activeCount s mid2 tt2 ≤ 1) :
    activeCount (enqueue s mid rid tt prio) mid2 tt2 ≤ 1 := by
  unfold enqueue
  by_cases hdup : s.tasks.any (activeFor mid tt) = true
  · simpa [hdup] using h
  · rw [if_neg hdup]
    unfold activeCount at *
    simp only [List.countP_append]
    by_cases hm : mid2 = mid ∧ tt2 = tt
    · obtain ⟨hm1, hm2⟩ := hm
      subst hm1; subst hm2
      have hzero : s.tasks.countP (activeFor mid2 tt2) = 0 := by
        rw [List.countP_eq_zero]
        intro a ha hact
        exact hdup (List.any_eq_true.mpr ⟨a, ha, hact⟩)
      rw [hzero]
      simp [activeFor, nonTerminal]
    · have hnew : (List.countP (activeFor mid2 tt2)
          [(⟨s.nextId, mid, rid, tt, prio, .pending, 0, none, s.nextId⟩ : Task)]) = 0 := by
        rw [List.countP_eq_zero]
        intro a ha
        simp only [List.mem_singleton] at ha
        subst ha
        intro hact
        have hc := activeFor_status_cases hact
        exact hm ⟨hc.1.symm, hc.2.1.symm⟩
      omega

lemma activeFor_of_update {mid tt : String} {f : Task → Task}
    (hmid : ∀ t, (f t).message_id = t.message_id)
    (htt : ∀ t, (f t).task_type = t.task_type)
    (hnt : ∀ t, nonTerminal (f t).status = true → nonTerminal t.status = true) :
    ∀ t, activeFor mid tt (f t) = true → activeFor mid tt t = true := by
  intro t h
  unfold activeFor at *
  simp only [Bool.and_eq_true, beq_iff_eq] at *
  exact ⟨⟨(hmid t) ▸ h.1.1, (htt t) ▸ h.1.2⟩, hnt t h.2⟩

lemma claimNext_preserves (s : QueueState) (mid tt : String)
    (h : activeCount s mid tt ≤ 1) : activeCount (claimNext s).1 mid tt ≤ 1 := by
  unfold claimNext
  cases hp : pickBest s.tasks with
  | none => simpa using h
  | some t =>
    simp only
    refine le_trans (activeCount_map_le s _ mid tt ?_) h
    apply activeFor_of_update
    · intro u; by_cases hc : u.id = t.id ∧ u.status = .pending <;> simp [hc]
    · intro u; by_cases hc : u.id = t.id ∧ u.status = .pending <;> simp [hc]
    · intro u
      by_cases hc : u.id = t.id ∧ u.status = .pending <;> simp [hc, nonTerminal]

lemma completeTask_preserves (s : QueueState) (tid : Nat) (mid tt : String)
    (h : activeCount s mid tt ≤ 1) : activeCount (completeTask s tid) mid tt ≤ 1 := by
  unfold completeTask
  refine le_trans (activeCount_map_le s _ mid tt ?_) h
  apply activeFor_of_update
  · intro u; by_cases hc : u.id = tid ∧ u.status = .in_progress <;> simp [hc]
  · intro u; by_cases hc : u.id = tid ∧ u.status = .in_progress <;> simp [hc]
  · intro u
    by_cases hc : u.id = tid ∧ u.status = .in_progress <;> simp [hc, nonTerminal]

lemma failUpdate_fields (err : String) (u : Task) :
    (failUpdate err u).message_id = u.message_id ∧
    (failUpdate err u).task_type = u.task_type := by
  unfold failUpdate
  by_cases hc : u.retry_count + 1 < retryBound <;> simp [hc]

lemma failTask_preserves (s : QueueState) (tid : Nat) (err : String) (mid tt : String)
    (h : activeCount s mid tt ≤ 1) : activeCount (failTask s tid err) mid tt ≤ 1 := by
  unfold failTask
  refine le_trans (activeCount_map_le s _ mid tt ?_) h
  apply activeFor_of_update
  · intro u
    by_cases hc : u.id = tid ∧ u.status = .in_progress <;>
      simp [hc, (failUpdate_fields err u).1]
  · intro u
    by_cases hc : u.id = tid ∧ u.status = .in_progress <;>
      simp [hc, (failUpdate_fields err u).2]
  · intro u
    by_cases hc : u.id = tid ∧ u.status = .in_progress <;> simp [hc]
    intro
    simp [hc.2, nonTerminal]

lemma applyQOp_preserves (s : QueueState) (op : QOp) (mid tt : String)
    (h : activeCount s mid tt ≤ 1) : activeCount (applyQOp s op) mid tt ≤ 1 := by
  cases op with
  | enq m r t p => exact enqueue_preserves_activeCount_le s m r t p mid tt h
  | claim => exact claimNext_preserves s mid tt h
  | compl tid => exact completeTask_preserves s tid mid tt h
  | fl tid err => exact failTask_preserves s tid err mid tt h

lemma runQueueFrom_preserves (ops : List QOp) :
    ∀ s : QueueState, (∀ mid tt, activeCount s mid tt ≤ 1) →
    ∀ mid tt, activeCount (runQueueFrom s ops) mid tt ≤ 1 := by
  induction ops with
  | nil => intro s h mid tt; exact h mid tt
  | cons op rest ih =>
    intro s h mid tt
    exact ih (applyQOp s op) (fun m t => applyQOp_preserves s op m t (h m t)) mid tt

/-- C1: `enqueue` is idempotent.  While a non-terminal Task for a
(`message_id`, `task_type`) pair exists, a second `enqueue` with the same
pair is a no-op creating no new Task row; consequently every queue state
reachable from the empty queue carries at most one Task with status in
{pending, in_progress} per (`message_id`, `task_type`) pair. -/
theorem C1_enqueue_idempotent (ops : List QOp) (mid tt : String) :
    activeCount (runQueue ops) mid tt ≤ 1 ∧
    (∀ (s : QueueState) (rid : String) (prio : Int),
      (∃ t ∈ s.tasks, activeFor mid tt t = true) → enqueue s mid rid tt prio = s) := by
  constructor
  · exact runQueueFrom_preserves ops initQueue
      (by intro m t; simp [initQueue, activeCount]) mid tt
  · intro s rid prio hex
    unfold enqueue
    rw [if_pos (List.any_eq_true.mpr hex)]

/-- Witness for C1: a task enqueued once is pending, and a second enqueue
for the same pair leaves the state unchanged. -/
theorem C1_enqueue_idempotent_witness :
    (∃ t ∈ (runQueue [.enq "m1" "r1" "classify" 5]).tasks,
      activeFor "m1" "classify" t = true) ∧
    enqueue (runQueue [.enq "m1" "r1" "classify" 5]) "m1" "r2" "classify" 7 =
      runQueue [.enq "m1" "r1" "classify" 5] := by
  have hex : ∃ t ∈ (runQueue [.enq "m1" "r1" "classify" 5]).tasks,
      activeFor "m1" "classify" t = true := by decide
  exact ⟨hex,
    (C1_enqueue_idempotent [.enq "m1" "r1" "classify" 5] "m1" "classify").2
      (runQueue [.enq "m1" "r1" "classify" 5]) "r2" 7 hex⟩

lemma dead_persists_op (s : QueueState) (t : Task) (op : QOp)
    (hmem : t ∈ s.tasks) (hdead : t.status = .dead) :
    t ∈ (applyQOp s op).tasks := by
  cases op with
  | enq m r tt p =>
    simp only [applyQOp]
    unfold enqueue
    by_cases hdup : s.tasks.any (activeFor m tt) = true
    · rw [if_pos hdup]; exact hmem
    · rw [if_neg hdup]; exact List.mem_append_left _ hmem
  | claim =>
    simp only [applyQOp]
    unfold claimNext
    cases hp : pickBest s.tasks with
    | none => exact hmem
    | some b =>
      simp only
      have : (if t.id = b.id ∧ t.status = .pending
          then { t with status := TaskStatus.in_progress } else t) = t := by
        rw [if_neg]; rintro ⟨-, hst⟩; rw [hdead] at hst; exact absurd hst (by simp)
      exact this ▸ List.mem_map_of_mem _ hmem
  | compl tid =>
    simp only [applyQOp]
    unfold completeTask
    have : (if t.id = tid ∧ t.status = .in_progress
        then { t with status := TaskStatus.completed } else t) = t := by
      rw [if_neg]; rintro ⟨-, hst⟩; rw [hdead] at hst; exact absurd hst (by simp)
    exact this ▸ List.mem_map_of_mem _ hmem
  | fl tid err =>
    simp only [applyQOp]
    unfold failTask
    have : (if t.id = tid ∧ t.status = .in_progress
        then failUpdate err t else t) = t := by
      rw [if_neg]; rintro ⟨-, hst⟩; rw [hdead] at hst; exact absurd hst (by simp)
    exact this ▸ List.mem_map_of_mem _ hmem

lemma dead_persists (ops : List QOp) :
    ∀ (s : QueueState) (t : Task), t ∈ s.tasks → t.status = .dead →
    t ∈ (runQueueFrom s ops).tasks := by
  induction ops with
  | nil => intro s t hmem _; exact hmem
  | cons op rest ih =>
    intro s t hmem hdead
    exact ih (applyQOp s op) t (dead_persists_op s t op hmem hdead) hdead

lemma failUpdate_dead (err : String) (t : Task)
    (hb : retryBound ≤ t.retry_count + 1) : (failUpdate err t).status = .dead := by
  unfold failUpdate
  rw [if_neg (by omega)]

/-- C4: once `fail` has been applied often enough that `retry_count`
reaches the configured bound (default 3), the Task becomes terminal
`dead`; no later queue operation returns it to `pending` or `in_progress`
and the retry machinery never removes it. -/
theorem C4_retry_exhaustion_dead (s : QueueState) (t : Task) (err : String)
    (ops : List QOp) (hmem : t ∈ s.tasks) (hip : t.status = .in_progress)
    (hb : retryBound ≤ t.retry_count + 1) :
    (failUpdate err t).status = .dead ∧
    retryBound ≤ (failUpdate err t).retry_count ∧
    failUpdate err t ∈ (failTask s t.id err).tasks ∧
    failUpdate err t ∈ (runQueueFrom (failTask s t.id err) ops).tasks := by
  have hd := failUpdate_dead err t hb
  have hrc : retryBound ≤ (failUpdate err t).retry_count := by
    unfold failUpdate
    by_cases hc : t.retry_count + 1 < retryBound <;> simp [hc] <;> omega
  have hmem2 : failUpdate err t ∈ (failTask s t.id err).tasks := by
    unfold failTask
    have heq : (if t.id = t.id ∧ t.status = .in_progress
        then failUpdate err t else t) = failUpdate err t := by
      rw [if_pos ⟨rfl, hip⟩]
    exact heq ▸ List.mem_map_of_mem _ hmem
  exact ⟨hd, hrc, hmem2, dead_persists ops _ _ hmem2 hd⟩

/-- Witness for C4: a concrete task on its third failure goes `dead` and
survives a subsequent claim/complete/enqueue sequence unchanged. -/
theorem C4_retry_exhaustion_dead_witness :
    ((⟨0, "m1", "r1", "classify", 5, .in_progress, 2, none, 0⟩ : Task) ∈
        (QueueState.mk [⟨0, "m1", "r1", "classify", 5, .in_progress, 2, none, 0⟩] 1).tasks ∧
      (⟨0, "m1", "r1", "classify", 5, .in_progress, 2, none, 0⟩ : Task).status = .in_progress ∧
      retryBound ≤ (⟨0, "m1", "r1", "classify", 5, .in_progress, 2, none, 0⟩ : Task).retry_count + 1) ∧
    (failUpdate "boom" ⟨0, "m1", "r1", "classify", 5, .in_progress, 2, none, 0⟩).status = .dead ∧
    failUpdate "boom" ⟨0, "m1", "r1", "classify", 5, .in_progress, 2, none, 0⟩ ∈
      (runQueueFrom
        (failTask (QueueState.mk [⟨0, "m1", "r1", "classify", 5, .in_progress, 2, none, 0⟩] 1) 0 "boom")
        [.claim, .enq "m2" "r1" "classify" 5, .compl 0]).tasks := by
  have h := C4_retry_exhaustion_dead
    (QueueState.mk [⟨0, "m1", "r1", "classify", 5, .in_progress, 2, none, 0⟩] 1)
    ⟨0, "m1", "r1", "classify", 5, .in_progress, 2, none, 0⟩ "boom"
    [.claim, .enq "m2" "r1" "classify" 5, .compl 0]
    (by decide) (by decide) (by decide)
  exact ⟨⟨by decide, by decide, by decide⟩, h.1, h.2.2.2⟩

/-! Section: MessageAnalysis store (§3 of the spec, table `ai_message_cache`)

Modelled from the spec: the backend code writing `ai_message_cache` is
absent from the source tree; only the table is declared in
`infra/database/init.sql`.  A classify/score task upserts `intent`,
`priority_score` and `urgency_keywords` using the output of the Priority
Scorer; a summarize task updates only the `summary` field it owns
(§5 field ownership). -/

structure MessageAnalysis where
  message_id : String
  room_id : String
  sender : String
  content : String
  summary : Option String
  intent : Option String
  priority_score : Option ℚ
  urgency_keywords : List String
deriving DecidableEq, Repr

/-- Enrichment results applied to the store as tasks complete. -/
inductive AOp where
  | classify (mid rid sender content intent : String)
  | summarize (mid summ : String)

def applyAOp (st : List MessageAnalysis) : AOp → List MessageAnalysis
  | .classify mid rid sender content intent =>
    if st.any (fun a => a.message_id == mid) then
      st.map (fun a => if a.message_id == mid then
        { a with intent := some intent,
                 priority_score := some (score intent content).1,
                 urgency_keywords := (score intent content).2 } else a)
    else
      st ++ [⟨mid, rid, sender, content, none, some intent,
              some (score intent content).1, (score intent content).2⟩]
  | .summarize mid summ =>
    st.map (fun a => if a.message_id == mid then { a with summary := some summ } else a)

def runAnalyses (ops : List AOp) : List MessageAnalysis := ops.foldl applyAOp []

lemma applyAOp_score_bound (st : List MessageAnalysis) (op : AOp)
    (h : ∀ a ∈ st, ∀ p : ℚ, a.priority_score = some p → 0 ≤ p ∧ p ≤ 10) :
    ∀ a ∈ applyAOp st op, ∀ p : ℚ, a.priority_score = some p → 0 ≤ p ∧ p ≤ 10 := by
  cases op with
  | classify mid rid sender content intent =>
    intro a ha p hp
    simp only [applyAOp] at ha
    by_cases hdup : st.any (fun a => a.message_id == mid) = true
    · rw [if_pos hdup] at ha
      obtain ⟨b, hb, hfb⟩ := List.mem_map.mp ha
      by_cases hc : b.message_id == mid
      · rw [if_pos hc] at hfb
        subst hfb
        simp only at hp
        have := Option.some.inj hp
        subst this
        exact score_range intent content
      · rw [if_neg (by simpa using hc)] at hfb
        subst hfb
        exact h b hb p hp
    · rw [if_neg hdup] at ha
      rcases List.mem_append.mp ha with hl | hr
      · exact h a hl p hp
      · simp only [List.mem_singleton] at hr
        subst hr
        simp only at hp
        have := Option.some.inj hp
        subst this
        exact score_range intent content
  | summarize mid summ =>
    intro a ha p hp
    simp only [applyAOp] at ha
    obtain ⟨b, hb, hfb⟩ := List.mem_map.mp ha
    by_cases hc : b.message_id == mid
    · rw [if_pos hc] at hfb
      subst hfb
      exact h b hb p hp
    · rw [if_neg (by simpa using hc)] at hfb
      subst hfb
      exact h b hb p hp

/-- C3: whenever a stored MessageAnalysis carries a present
`priority_score`, that value lies in [0.0, 10.0]; every reachable store
state satisfies the bound since each write preserves it. -/
theorem C3_priority_score_bounded (ops : List AOp) :
    ∀ a ∈ runAnalyses ops, ∀ p : ℚ, a.priority_score = some p → 0 ≤ p ∧ p ≤ 10 := by
  suffices hgen : ∀ (ops : List AOp) (st : List MessageAnalysis),
      (∀ a ∈ st, ∀ p : ℚ, a.priority_score = some p → 0 ≤ p ∧ p ≤ 10) →
      ∀ a ∈ ops.foldl applyAOp st, ∀ p : ℚ, a.priority_score = some p → 0 ≤ p ∧ p ≤ 10 by
    exact hgen ops [] (by simp)
  intro ops
  induction ops with
  | nil => intro st h; exact h
  | cons op rest ih =>
    intro st h
    exact ih (applyAOp st op) (applyAOp_score_bound st op h)

/-- Witness for C3: classifying one casual message stores a present
score, which the theorem bounds inside [0, 10]. -/
theorem C3_priority_score_bounded_witness :
    (∃ a ∈ runAnalyses [.classify "m1" "r1" "alice" "hello" "casual"],
      a.priority_score = some (score "casual" "hello").1) ∧
    0 ≤ (score "casual" "hello").1 ∧ (score "casual" "hello").1 ≤ 10 := by
  have hm : (⟨"m1", "r1", "alice", "hello", none, some "casual",
      some (score "casual" "hello").1, (score "casual" "hello").2⟩ : MessageAnalysis)
      ∈ runAnalyses [.classify "m1" "r1" "alice" "hello" "casual"] := by
    simp [runAnalyses, applyAOp]
  exact ⟨⟨_, hm, rfl⟩,
    C3_priority_score_bounded [.classify "m1" "r1" "alice" "hello" "casual"] _ hm _ rfl⟩

/-! Section: Knowledge Aggregator (§4.4 of the spec, table `ai_knowledge_base`)

Modelled from the spec: the aggregator implementation is absent from the
source tree; only the table and the `v_top_knowledge` view are declared in
`infra/database/init.sql`.  `propose` computes the semantic similarity of
the candidate question against existing entries scoped to the same
`source_room`; at or above the merge threshold (default 0.85 cosine,
§8) the candidate is merged into the best-matching entry: `confidence`
becomes the maximum of the two, `answer` is replaced only when the
confidence of the candidate strictly exceeds the prior one and the entry is
not verified, and vote counts are untouched.  Otherwise a new entry with
zero votes is created. -/

structure KnowledgeEntry where
  id : Nat
  question : String
  answer : String
  source_room : String
  source_message_id : Option String
  confidence : ℚ
  upvotes : Int
  downvotes : Int
  is_verified : Bool
deriving DecidableEq, Repr

structure KBState where
  entries : List KnowledgeEntry
  nextId : Nat
deriving DecidableEq, Repr

/-- The merge threshold (default 0.85 cosine similarity). -/
def mergeThreshold : ℚ := 85/100

/-- The best-matching existing entry in the room of the candidate, if any. -/
def bestMatch (sim : String → String → ℚ) (q room : String) :
    List KnowledgeEntry → Option KnowledgeEntry
  | [] => none
  | e :: rest =>
    let r := bestMatch sim q room rest
    if e.source_room = room then
      match r with
      | none => some e
      | some b => if sim q b.question > sim q e.question then some b else some e
    else r

/-- Merge a candidate into an existing entry: confidence becomes the max,
the answer is replaced only by a strictly more confident candidate when
the entry is unverified, votes and verification are untouched. -/
def mergeInto (candAnswer : String) (conf : ℚ) (e : KnowledgeEntry) : KnowledgeEntry :=
  { e with
    confidence := max e.confidence conf,
    answer := if e.confidence < conf ∧ e.is_verified = false then candAnswer else e.answer }

def propose (sim : String → String → ℚ) (kb : KBState)
    (q a room : String) (srcMid : Option String) (conf : ℚ) : KBState :=
  match bestMatch sim q room kb.entries with
  | some b =>
    if mergeThreshold ≤ sim q b.question then
      { kb with entries := kb.entries.map (fun e =>
          if e.id = b.id then mergeInto a conf e else e) }
    else
      { entries := kb.entries ++ [⟨kb.nextId, q, a, room, srcMid, conf, 0, 0, false⟩],
        nextId := kb.nextId + 1 }
  | none =>
    { entries := kb.entries ++ [⟨kb.nextId, q, a, room, srcMid, conf, 0, 0, false⟩],
      nextId := kb.nextId + 1 }

lemma bestMatch_some_of_mem (sim : String → String → ℚ) (q room : String)
    (l : List KnowledgeEntry) (e : KnowledgeEntry) (he : e ∈ l)
    (hroom : e.source_room = room) :
    ∃ b, bestMatch sim q room l = some b ∧ sim q e.question ≤ sim q b.question := by
  induction l with
  | nil => cases he
  | cons f rest ih =>
    rcases List.mem_cons.mp he with heq | hmem
    · subst heq
      simp only [bestMatch, if_pos hroom]
      cases hr : bestMatch sim q room rest with
      | none => exact ⟨e, rfl, le_refl _⟩
      | some b =>
        by_cases hlt : sim q b.question > sim q e.question
        · refine ⟨b, ?_, le_of_lt hlt⟩
          dsimp only
          rw [if_pos hlt]
        · refine ⟨e, ?_, le_refl _⟩
          dsimp only
          rw [if_neg hlt]
    · obtain ⟨b, hb, hle⟩ := ih hmem
      simp only [bestMatch, hb]
      by_cases hf : f.source_room = room
      · rw [if_pos hf]
        by_cases hlt : sim q b.question > sim q f.question
        · refine ⟨b, ?_, hle⟩
          rw [if_pos hlt]
        · refine ⟨f, ?_, le_trans hle (not_lt.mp hlt)⟩
          rw [if_neg hlt]
      · exact ⟨b, by rw [if_neg hf], hle⟩

/-- C5: proposing a Q&A candidate whose question has similarity at or
above 0.85 to an existing unverified entry in the same room merges rather
than inserts: the entry count stays the same, every post-state entry
corresponds to a pre-state entry with the same id and unchanged vote
counts, and confidence never decreases. -/
theorem C5_merge_updates_in_place (sim : String → String → ℚ) (kb : KBState)
    (q a room : String) (srcMid : Option String) (conf : ℚ)
    (hex : ∃ e ∈ kb.entries, e.source_room = room ∧
      mergeThreshold ≤ sim q e.question ∧ e.is_verified = false) :
    (propose sim kb q a room srcMid conf).entries.length = kb.entries.length ∧
    ∀ x ∈ (propose sim kb q a room srcMid conf).entries, ∃ e ∈ kb.entries,
      x.id = e.id ∧ x.upvotes = e.upvotes ∧ x.downvotes = e.downvotes ∧
      e.confidence ≤ x.confidence := by
  obtain ⟨e, he, hroom, hsim, -⟩ := hex
  obtain ⟨b, hb, hle⟩ := bestMatch_some_of_mem sim q room kb.entries e he hroom
  have hthr : mergeThreshold ≤ sim q b.question := le_trans hsim hle
  unfold propose
  rw [hb]
  dsimp only
  rw [if_pos hthr]
  constructor
  · exact List.length_map _ _
  · intro x hx
    obtain ⟨y, hy, hfy⟩ := List.mem_map.mp hx
    by_cases hc : y.id = b.id
    · rw [if_pos hc] at hfy
      subst hfy
      exact ⟨y, hy, rfl, rfl, rfl, le_max_left _ _⟩
    · rw [if_neg hc] at hfy
      subst hfy
      exact ⟨y, hy, rfl, rfl, rfl, le_refl _⟩

/-- Witness for C5: with a constant similarity of 0.9 a proposal against a
one-entry room merges in place, keeping one row, its id and votes, and
raising confidence from 0.5 to at most the maximum. -/
theorem C5_merge_updates_in_place_witness :
    (∃ e ∈ (KBState.mk [⟨0, "q0", "a0", "room1", none, 1/2, 2, 1, false⟩] 1).entries,
      e.source_room = "room1" ∧ mergeThreshold ≤ (fun _ _ => (9:ℚ)/10) "q1" e.question ∧
      e.is_verified = false) ∧
    (propose (fun _ _ => (9:ℚ)/10)
      (KBState.mk [⟨0, "q0", "a0", "room1", none, 1/2, 2, 1, false⟩] 1)
      "q1" "a1" "room1" none (4/5)).entries.length =
      (KBState.mk [⟨0, "q0", "a0", "room1", none, 1/2, 2, 1, false⟩] 1).entries.length := by
  have hex : ∃ e ∈ (KBState.mk [⟨0, "q0", "a0", "room1", none, 1/2, 2, 1, false⟩] 1).entries,
      e.source_room = "room1" ∧ mergeThreshold ≤ (fun _ _ => (9:ℚ)/10) "q1" e.question ∧
      e.is_verified = false := by
    refine ⟨⟨0, "q0", "a0", "room1", none, 1/2, 2, 1, false⟩, by simp, rfl, ?_, rfl⟩
    unfold mergeThreshold
    norm_num
  exact ⟨hex, (C5_merge_updates_in_place (fun _ _ => (9:ℚ)/10)
    (KBState.mk [⟨0, "q0", "a0", "room1", none, 1/2, 2, 1, false⟩] 1)
    "q1" "a1" "room1" none (4/5) hex).1⟩

/-! Section: Report Generator (§4.5 of the spec, table `ai_daily_reports`)

Modelled from the spec: the generator implementation is absent from the
source tree; `infra/database/init.sql` declares the table with
`UNIQUE(report_date, report_type)`.  `generate` replaces any prior report
for the same (`report_date`, `report_type`) pair with the new one
(re-runs replace, not append). -/

structure DailyReport where
  report_date : String
  report_type : String
  total_messages : Nat
  high_priority_count : Nat
  room_summaries : List (String × String)
  top_intents : List (String × Nat)
  generated_at : Nat
deriving DecidableEq, Repr

/-- Does the report occupy the (`report_date`, `report_type`) slot? -/
def sameKey (d ty : String) (r : DailyReport) : Bool :=
  r.report_date == d && r.report_type == ty

/-- Model of `generate(date, type)`: replace any existing report for the pair. -/
def generate (reports : List DailyReport) (d ty : String) (tm hp : Nat)
    (rs : List (String × String)) (ti : List (String × Nat)) (gAt : Nat) :
    List DailyReport :=
  reports.filter (fun r => !(sameKey d ty r)) ++ [⟨d, ty, tm, hp, rs, ti, gAt⟩]

/-- One generator run and its inputs. -/
structure GOp where
  d : String
  ty : String
  tm : Nat
  hp : Nat
  rs : List (String × String)
  ti : List (String × Nat)
  gAt : Nat

def applyGOp (reports : List DailyReport) (op : GOp) : List DailyReport :=
  generate reports op.d op.ty op.tm op.hp op.rs op.ti op.gAt

def runReports (ops : List GOp) : List DailyReport := ops.foldl applyGOp []

lemma generate_key_count (reports : List DailyReport) (op : GOp) (d ty : String)
    (h : reports.countP (sameKey d ty) ≤ 1) :
    (applyGOp reports op).countP (sameKey d ty) ≤ 1 := by
  unfold applyGOp generate
  rw [List.countP_append]
  by_cases hk : d = op.d ∧ ty = op.ty
  · obtain ⟨h1, h2⟩ := hk
    subst h1; subst h2
    have hz : (reports.filter (fun r => !(sameKey op.d op.ty r))).countP
        (sameKey op.d op.ty) = 0 := by
      rw [List.countP_eq_zero]
      intro r hr
      have := List.of_mem_filter hr
      simp only [Bool.not_eq_true'] at this
      simp [this]
    rw [hz]
    simp [sameKey]
  · have hz : (List.countP (sameKey d ty)
        [(⟨op.d, op.ty, op.tm, op.hp, op.rs, op.ti, op.gAt⟩ : DailyReport)]) = 0 := by
      rw [List.countP_eq_zero]
      intro r hr
      simp only [List.mem_singleton] at hr
      subst hr
      intro hs
      unfold sameKey at hs
      simp only [Bool.and_eq_true, beq_iff_eq] at hs
      exact hk ⟨hs.1.symm, hs.2.symm⟩
    have hle : (reports.filter (fun r => !(sameKey op.d op.ty r))).countP (sameKey d ty) ≤
        reports.countP (sameKey d ty) := by
      rw [List.countP_filter]
      exact List.countP_mono_left (fun a _ hp => by
        simp only [Bool.and_eq_true] at hp
        exact hp.1)
    omega

/-- C6: at most one DailyReport per (`report_date`, `report_type`) pair in
every reachable report store, and regenerating for the same pair replaces
the prior report with one reflecting the data of the second run. -/
theorem C6_one_report_per_date_type (ops : List GOp) (d ty : String) :
    (runReports ops).countP (sameKey d ty) ≤ 1 ∧
    (∀ (reports : List DailyReport) (tm1 hp1 : Nat) (rs1 : List (String × String))
      (ti1 : List (String × Nat)) (g1 : Nat) (tm2 hp2 : Nat)
      (rs2 : List (String × String)) (ti2 : List (String × Nat)) (g2 : Nat),
      (generate (generate reports d ty tm1 hp1 rs1 ti1 g1) d ty tm2 hp2 rs2 ti2 g2).filter
          (sameKey d ty) =
        [⟨d, ty, tm2, hp2, rs2, ti2, g2⟩]) := by
  constructor
  · suffices hgen : ∀ (ops : List GOp) (st : List DailyReport),
        st.countP (sameKey d ty) ≤ 1 →
        (ops.foldl applyGOp st).countP (sameKey d ty) ≤ 1 by
      exact hgen ops [] (by simp)
    intro ops
    induction ops with
    | nil => intro st h; exact h
    | cons op rest ih =>
      intro st h
      exact ih (applyGOp st op) (generate_key_count st op d ty h)
  · intro reports tm1 hp1 rs1 ti1 g1 tm2 hp2 rs2 ti2 g2
    unfold generate
    simp only [List.filter_append, List.filter_filter]
    simp [sameKey]

/-! Section: The `v_top_knowledge` view (init.sql, lines 188-200)

Embedded from the source: rows of `ai_knowledge_base` satisfying
`is_verified = TRUE OR (upvotes - downvotes) >= 5`, ordered by
`(upvotes - downvotes) DESC, confidence DESC`, `LIMIT 50`. -/

/-- The WHERE clause of the view: `is_verified = TRUE OR (upvotes - downvotes) >= 5`. -/
def promotedb (e : KnowledgeEntry) : Bool :=
  e.is_verified || decide (5 ≤ e.upvotes - e.downvotes)

/-- The ORDER BY of the view: `(upvotes - downvotes) DESC, confidence DESC`. -/
def viewBefore (a b : KnowledgeEntry) : Bool :=
  decide (b.upvotes - b.downvotes < a.upvotes - a.downvotes) ||
    (decide (a.upvotes - a.downvotes = b.upvotes - b.downvotes) &&
      decide (b.confidence ≤ a.confidence))

/-- View `v_top_knowledge`: filter by the promotion predicate, sort by the
view ordering, `LIMIT 50`. -/
def vTopKnowledge (entries : List KnowledgeEntry) : List KnowledgeEntry :=
  (List.insertionSort (fun a b => viewBefore a b = true) (entries.filter promotedb)).take 50

/-- Fifty-one entries that all satisfy the promotion predicate. -/
def entries51 : List KnowledgeEntry :=
  (List.range 51).map (fun i => ⟨i, "", "", "", none, 0, 100 - (i : Int), 0, true⟩)

/-- C7 counterexample: with 51 qualifying entries the `LIMIT 50` of the view
drops one of them, so satisfying the promotion predicate does not imply
appearing in the view. -/
theorem C7_counterexample :
    promotedb ⟨50, "", "", "", none, 0, 50, 0, true⟩ = true ∧
    (⟨50, "", "", "", none, 0, 50, 0, true⟩ : KnowledgeEntry) ∈ entries51 ∧
    (⟨50, "", "", "", none, 0, 50, 0, true⟩ : KnowledgeEntry) ∉ vTopKnowledge entries51 := by
  decide

/-- C7 (amended): every entry in `v_top_knowledge` satisfies the
promotion predicate `is_verified ∨ upvotes − downvotes ≥ 5`, and whenever
at most 50 stored entries satisfy the predicate, an entry appears in the
view exactly when it satisfies it; promotion is computed from the stored
counts at read time, not stored separately. -/
theorem C7_amended_promotion_filter (entries : List KnowledgeEntry) :
    (∀ e ∈ vTopKnowledge entries, promotedb e = true ∧ e ∈ entries) ∧
    ((entries.filter promotedb).length ≤ 50 →
      ∀ e, e ∈ vTopKnowledge entries ↔ (promotedb e = true ∧ e ∈ entries)) := by
  constructor
  · intro e he
    have h1 : e ∈ List.insertionSort (fun a b => viewBefore a b = true)
        (entries.filter promotedb) := List.mem_of_mem_take he
    have h2 : e ∈ entries.filter promotedb := (List.mem_insertionSort _).mp h1
    have h3 := List.mem_filter.mp h2
    exact ⟨h3.2, h3.1⟩
  · intro hlen e
    have hlen2 : (List.insertionSort (fun a b => viewBefore a b = true)
        (entries.filter promotedb)).length ≤ 50 := by
      rw [List.length_insertionSort]
      exact hlen
    unfold vTopKnowledge
    rw [List.take_of_length_le hlen2]
    rw [List.mem_insertionSort, List.mem_filter]
    exact ⟨fun h => ⟨h.2, h.1⟩, fun h => ⟨h.2, h.1⟩⟩

/-- Witness for the amended C7: a single verified entry appears in the
view, and a one-entry store is within the 50-row limit. -/
theorem C7_amended_promotion_filter_witness :
    (([⟨0, "q0", "a0", "room1", none, 0, 0, 0, true⟩] :
        List KnowledgeEntry).filter promotedb).length ≤ 50 ∧
    ((⟨0, "q0", "a0", "room1", none, 0, 0, 0, true⟩ : KnowledgeEntry) ∈
        vTopKnowledge [⟨0, "q0", "a0", "room1", none, 0, 0, 0, true⟩] ↔
      (promotedb ⟨0, "q0", "a0", "room1", none, 0, 0, 0, true⟩ = true ∧
        (⟨0, "q0", "a0", "room1", none, 0, 0, 0, true⟩ : KnowledgeEntry) ∈
          [(⟨0, "q0", "a0", "room1", none, 0, 0, 0, true⟩ : KnowledgeEntry)])) := by
  have hlen : (([⟨0, "q0", "a0", "room1", none, 0, 0, 0, true⟩] :
      List KnowledgeEntry).filter promotedb).length ≤ 50 := by decide
  exact ⟨hlen,
    (C7_amended_promotion_filter [⟨0, "q0", "a0", "room1", none, 0, 0, 0, true⟩]).2 hlen _⟩

/-! Section: Frontend priority page (frontend/src/app/priority/page.tsx) and the
`v_high_priority_messages` view (init.sql, lines 160-173)

`getPriorityLevel` and the `stats` counters are embedded from
`page.tsx` lines 84-99; the view from its SQL definition: rows of
`ai_message_cache` with `priority_score >= 7.0`, ordered by
`priority_score DESC, processed_at DESC`, `LIMIT 100`. -/

/-- A row of `ai_message_cache` as the view reads it. -/
structure CacheRow where
  message_id : String
  priority_score : Option ℚ
  processed_at : Nat
deriving DecidableEq, Repr

/-- Function `getPriorityLevel` from priority/page.tsx lines 84-88. -/
def getPriorityLevel (s : ℚ) : String :=
  if 6 ≤ s then "high" else if 3 ≤ s then "medium" else "low"

/-- The WHERE clause of the view: `priority_score >= 7.0` (NULL rows fail). -/
def highPriorityFilter (r : CacheRow) : Bool :=
  match r.priority_score with
  | some p => decide (7 ≤ p)
  | none => false

def rowKey (r : CacheRow) : ℚ := r.priority_score.getD 0

/-- The ORDER BY of the view: `priority_score DESC, processed_at DESC`. -/
def rowBefore (a b : CacheRow) : Bool :=
  decide (rowKey b < rowKey a) ||
    (decide (rowKey a = rowKey b) && decide (b.processed_at ≤ a.processed_at))

/-- View `v_high_priority_messages`: filter, sort, `LIMIT 100`. -/
def vHighPriorityMessages (rows : List CacheRow) : List CacheRow :=
  (List.insertionSort (fun a b => rowBefore a b = true) (rows.filter highPriorityFilter)).take 100

/-- C8 counterexample: a message scored 6.0 is classified `high` by the
frontend (threshold 6) but excluded from `v_high_priority_messages`
(threshold 7.0), so the two notions of high priority do not coincide. -/
theorem C8_counterexample :
    getPriorityLevel 6 = "high" ∧
    (⟨"m1", some 6, 0⟩ : CacheRow) ∈ [(⟨"m1", some 6, 0⟩ : CacheRow)] ∧
    (⟨"m1", some 6, 0⟩ : CacheRow) ∉ vHighPriorityMessages [⟨"m1", some 6, 0⟩] := by
  decide

/-- C8 (amended): the containment holds in one direction only — every row
of `v_high_priority_messages` has a present score of at least 7.0 and is
classified `high` by `getPriorityLevel` in the frontend; the converse
fails because the frontend threshold is 6 while that of the view is 7.0. -/
theorem C8_amended_view_subset_frontend_high (rows : List CacheRow) (r : CacheRow)
    (hr : r ∈ vHighPriorityMessages rows) :
    ∃ p : ℚ, r.priority_score = some p ∧ 7 ≤ p ∧ getPriorityLevel p = "high" := by
  have h1 : r ∈ List.insertionSort (fun a b => rowBefore a b = true)
      (rows.filter highPriorityFilter) := List.mem_of_mem_take hr
  have h2 : r ∈ rows.filter highPriorityFilter := (List.mem_insertionSort _).mp h1
  have h3 := (List.mem_filter.mp h2).2
  unfold highPriorityFilter at h3
  cases hp : r.priority_score with
  | none => rw [hp] at h3; simp at h3
  | some p =>
    rw [hp] at h3
    have h7 : 7 ≤ p := of_decide_eq_true h3
    refine ⟨p, rfl, h7, ?_⟩
    unfold getPriorityLevel
    rw [if_pos (by linarith)]

/-- Witness for the amended C8: a row scored 8.0 appears in the view and
the theorem yields its score, bound and frontend classification. -/
theorem C8_amended_view_subset_frontend_high_witness :
    (⟨"m1", some 8, 0⟩ : CacheRow) ∈ vHighPriorityMessages [⟨"m1", some 8, 0⟩] ∧
    ∃ p : ℚ, (⟨"m1", some 8, 0⟩ : CacheRow).priority_score = some p ∧ 7 ≤ p ∧
      getPriorityLevel p = "high" := by
  have hm : (⟨"m1", some 8, 0⟩ : CacheRow) ∈ vHighPriorityMessages [⟨"m1", some 8, 0⟩] := by
    decide
  exact ⟨hm, C8_amended_view_subset_frontend_high _ _ hm⟩

/-- Counter `stats.high` from priority/page.tsx line 96. -/
def statsHigh (scores : List ℚ) : Nat :=
  (scores.filter (fun m => decide (6 ≤ m))).length

/-- Counter `stats.medium` from priority/page.tsx line 97. -/
def statsMedium (scores : List ℚ) : Nat :=
  (scores.filter (fun m => decide (3 ≤ m) && decide (m < 6))).length

/-- Counter `stats.low` from priority/page.tsx line 98. -/
def statsLow (scores : List ℚ) : Nat :=
  (scores.filter (fun m => decide (m < 3))).length

/-- C9: the priority bands partition the score space — every score is
classified into exactly one of high (≥ 6), medium (3 ≤ s < 6) or low
(< 3), and the three counters on the priority page always sum to the
total number of messages. -/
theorem C9_priority_bands_partition (scores : List ℚ) :
    statsHigh scores + statsMedium scores + statsLow scores = scores.length ∧
    ∀ s : ℚ, (getPriorityLevel s = "high" ↔ 6 ≤ s) ∧
      (getPriorityLevel s = "medium" ↔ 3 ≤ s ∧ s < 6) ∧
      (getPriorityLevel s = "low" ↔ s < 3) := by
  constructor
  · have hH : ∀ l : List ℚ, statsHigh l = l.countP (fun m => decide (6 ≤ m)) :=
      fun l => (List.countP_eq_length_filter _ _).symm
    have hM : ∀ l : List ℚ, statsMedium l =
        l.countP (fun m => decide (3 ≤ m) && decide (m < 6)) :=
      fun l => (List.countP_eq_length_filter _ _).symm
    have hL : ∀ l : List ℚ, statsLow l = l.countP (fun m => decide (m < 3)) :=
      fun l => (List.countP_eq_length_filter _ _).symm
    rw [hH, hM, hL]
    induction scores with
    | nil => rfl
    | cons x xs ih =>
      simp only [List.countP_cons, List.length_cons]
      by_cases h6 : 6 ≤ x
      · have h3 : 3 ≤ x := by linarith
        have hn6 : ¬ x < 6 := not_lt.mpr h6
        have hn3 : ¬ x < 3 := not_lt.mpr (by linarith)
        simp only [h6, h3, hn6, hn3, decide_eq_true_eq, if_true, if_false,
          decide_eq_true, Bool.and_eq_true]
        simp [h6, h3, hn6, hn3]
        omega
      · by_cases h3 : 3 ≤ x
        · have hlt6 : x < 6 := not_le.mp h6
          have hn3 : ¬ x < 3 := not_lt.mpr h3
          simp [h6, h3, hlt6, hn3]
          omega
        · have hlt3 : x < 3 := not_le.mp h3
          simp [h6, h3, hlt3]
          omega
  · intro s
    by_cases h6 : 6 ≤ s
    · have hn6 : ¬ s < 6 := not_lt.mpr h6
      have h3 : 3 ≤ s := by linarith
      have hn3 : ¬ s < 3 := not_lt.mpr (by linarith)
      refine ⟨?_, ?_, ?_⟩ <;> simp [getPriorityLevel, h6, h3, hn6, hn3]
    · by_cases h3 : 3 ≤ s
      · have hlt6 : s < 6 := not_le.mp h6
        have hn3 : ¬ s < 3 := not_lt.mpr h3
        refine ⟨?_, ?_, ?_⟩ <;> simp [getPriorityLevel, h6, h3, hlt6, hn3]
      · have hlt3 : s < 3 := not_le.mp h3
        have hlt6 : s < 6 := by linarith
        refine ⟨?_, ?_, ?_⟩ <;> simp [getPriorityLevel, h6, h3, hlt3, hlt6]

/-! Section: Matrix client session (frontend/src/lib/matrix.ts)

Embedded from the source: a module-level cached `client`, the browser
`localStorage` as a key/value store, `getMatrixClient` (lines 5-35,
returning the cached client, else reading the three credential keys and
returning `null` when any is missing or empty — JavaScript falsiness),
and `logoutMatrix` (lines 79-87, stopping and clearing the cached client
and removing the three credential keys). -/

structure MatrixClientModel where
  baseUrl : String
  accessToken : String
  userId : String
deriving DecidableEq, Repr

structure FrontendState where
  client : Option MatrixClientModel
  storage : List (String × String)
deriving DecidableEq, Repr

/-- Model of `localStorage.getItem`: the value stored under the first matching
key, else `null`. -/
def getItem : List (String × String) → String → Option String
  | [], _ => none
  | kv :: rest, k => if kv.1 == k then some kv.2 else getItem rest k

/-- Model of `localStorage.removeItem`. -/
def removeItem (st : List (String × String)) (k : String) : List (String × String) :=
  st.filter (fun kv => !(kv.1 == k))

/-- JavaScript falsiness of the result of `localStorage.getItem`: `null` or
the empty string. -/
def falsy : Option String → Bool
  | none => true
  | some s => s == ""

/-- Model of `logoutMatrix` (matrix.ts lines 79-87): stop and clear the cached
client, remove the three credential keys. -/
def logoutMatrix (s : FrontendState) : FrontendState :=
  { client := none,
    storage := removeItem (removeItem (removeItem s.storage
      "matrix_access_token") "matrix_user_id") "matrix_homeserver" }

/-- Model of `getMatrixClient` (matrix.ts lines 5-35): reuse the cached client,
else read the three credential keys; any falsy credential yields `null`,
otherwise a new client is created and cached. -/
def getMatrixClient (s : FrontendState) : FrontendState × Option MatrixClientModel :=
  match s.client with
  | some c => (s, some c)
  | none =>
    let h := getItem s.storage "matrix_homeserver"
    let a := getItem s.storage "matrix_access_token"
    let u := getItem s.storage "matrix_user_id"
    if falsy h || falsy a || falsy u then (s, none)
    else
      let c : MatrixClientModel := ⟨h.getD "", a.getD "", u.getD ""⟩
      ({ s with client := some c }, some c)

lemma getItem_removeItem_self (st : List (String × String)) (k : String) :
    getItem (removeItem st k) k = none := by
  induction st with
  | nil => rfl
  | cons kv rest ih =>
    unfold removeItem at ih ⊢
    rw [List.filter_cons]
    cases hb : (kv.1 == k) with
    | true => simpa [hb] using ih
    | false => simp [getItem, hb, ih]

lemma getItem_removeItem_other (st : List (String × String)) (k k2 : String)
    (hne : getItem st k = none) : getItem (removeItem st k2) k = none := by
  induction st with
  | nil => rfl
  | cons kv rest ih =>
    unfold removeItem at ih ⊢
    rw [List.filter_cons]
    have hkv : (kv.1 == k) = false := by
      cases hb : (kv.1 == k) with
      | false => rfl
      | true => rw [getItem, if_pos hb] at hne; exact absurd hne (by simp)
    have hrest : getItem rest k = none := by
      rw [getItem, if_neg (by simp [hkv])] at hne
      exact hne
    cases hb2 : (kv.1 == k2) with
    | true => simpa [hb2] using ih hrest
    | false => simp [getItem, hb2, hkv, ih hrest]

/-- C10: after `logoutMatrix`, all three Matrix credentials are gone from
localStorage and the cached client is cleared, so `getMatrixClient`
returns `null` and leaves the state unchanged — no session is reused
until a fresh login stores new credentials. -/
theorem C10_logout_clears_session (s : FrontendState) :
    getItem (logoutMatrix s).storage "matrix_access_token" = none ∧
    getItem (logoutMatrix s).storage "matrix_user_id" = none ∧
    getItem (logoutMatrix s).storage "matrix_homeserver" = none ∧
    (logoutMatrix s).client = none ∧
    (getMatrixClient (logoutMatrix s)).2 = none ∧
    (getMatrixClient (logoutMatrix s)).1 = logoutMatrix s := by
  have htok : getItem (logoutMatrix s).storage "matrix_access_token" = none := by
    unfold logoutMatrix
    exact getItem_removeItem_other _ _ _
      (getItem_removeItem_other _ _ _ (getItem_removeItem_self _ _))
  have huid : getItem (logoutMatrix s).storage "matrix_user_id" = none := by
    unfold logoutMatrix
    exact getItem_removeItem_other _ _ _ (getItem_removeItem_self _ _)
  have hhome : getItem (logoutMatrix s).storage "matrix_homeserver" = none := by
    unfold logoutMatrix
    exact getItem_removeItem_self _ _
  have hclient : (logoutMatrix s).client = none := rfl
  have hget : getMatrixClient (logoutMatrix s) = (logoutMatrix s, none) := by
    unfold getMatrixClient
    rw [hclient]
    simp only [hhome, falsy, Bool.true_or]
    rfl
  exact ⟨htok, huid, hhome, hclient, by rw [hget], by rw [hget]⟩

end MIP
